import Mathlib

/-!
Shallow embedding of the Percepta orchestration core: the model registry
(`src/modelRegistry.js`) and the pipeline engine (`src/unnamed/part_000`,
the pipeline-engine module).  JS `Map`s are embedded as association lists
in insertion order (`Map.set` on an existing key updates the entry in
place, preserving its position; iteration follows insertion order), and
JS arrays as Lean lists.  Exceptions are embedded with `Except` / `Option`.
Timing values obtained from `Date.now()` do not influence control flow and
are threaded as explicit duration arguments.
-/

namespace Percepta

/-- Association-list lookup, embedding `Map.get` (first matching key). -/
def mapGet {α : Type} : List (String × α) → String → Option α
  | [], _ => none
  | (k, v) :: rest, id => if k = id then some v else mapGet rest id

/-- Association-list update, embedding `Map.set`: replace in place if the
key is present (keeping its position), otherwise append at the end. -/
def mapSet {α : Type} : List (String × α) → String → α → List (String × α)
  | [], id, v => [(id, v)]
  | (k, w) :: rest, id, v =>
      if k = id then (id, v) :: rest else (k, w) :: mapSet rest id v

/-- Association-list removal, embedding `Map.delete`. -/
def mapDelete {α : Type} (l : List (String × α)) (id : String) : List (String × α) :=
  l.filter (fun e => !(e.1 == id))

/-- Index of the first element satisfying `p`, embedding `Array.indexOf`
(`none` plays the role of JS's `-1`). -/
def idxOfP {α : Type} (p : α → Bool) : List α → Option Nat
  | [] => none
  | x :: xs => if p x then some 0 else (idxOfP p xs).map (· + 1)

/-- Embedding of the `indexOf` / `splice(index, 1)` idiom: remove the first
element satisfying `p`, if any. -/
def spliceOutFirstP {α : Type} (p : α → Bool) (l : List α) : List α :=
  match idxOfP p l with
  | some i => l.eraseIdx i
  | none => l

/-- Capability descriptor, as read by the registry: `getCapabilities()`
returns an object whose `type` and `role` fields are the only ones the
registry consults. -/
structure Caps where
  type : String
  role : String
deriving DecidableEq

/-- A model instance as the pipeline engine sees it: an `analyze` method
(which may fail) plus its capability descriptor.  `I` is the input type,
`C` the context type, `E` the error type, `O` the output type. -/
structure Model (I C E O : Type) where
  analyze : I → C → Except E O
  caps : Caps

/-- A registry entry, as built by `ModelRegistry.register`. -/
structure Registration (μ : Type) where
  model : μ
  priority : Int
  fallbackFor : Option String
  enabled : Bool

/-- The options object passed to `register`; each field may be absent. -/
structure RegOptions where
  priority : Option Int := none
  fallbackFor : Option String := none
  enabled : Option Bool := none

/-- The registry state: `models` is the id → registration map, `fallbacks`
the primary-id → fallback-id-list map. -/
structure ModelRegistry (μ : Type) where
  models : List (String × Registration μ)
  fallbacks : List (String × List String)

def ModelRegistry.empty {μ : Type} : ModelRegistry μ := ⟨[], []⟩

/-- Append `id` to the chain for `F`, creating the chain if absent:
embeds the `if (!this.fallbacks.has(...)) set(..., []); ... push(id)`
sequence in `register`. -/
def fbPush : List (String × List String) → String → String → List (String × List String)
  | [], f, id => [(f, [id])]
  | (k, lst) :: rest, f, id =>
      if k = f then (k, lst ++ [id]) :: rest
      else (k, lst) :: fbPush rest f id

/-- `this.fallbacks.get(id) || []`. -/
def fbChain (fb : List (String × List String)) (f : String) : List String :=
  match mapGet fb f with
  | some l => l
  | none => []

/-- `ModelRegistry.register(id, model, options)`.  Note the JS coercions:
`options.priority || 1` maps the falsy `0` (and absence) to `1`;
`options.fallbackFor || null` maps the falsy `""` (and absence) to `null`;
`options.enabled !== false` is `true` unless `enabled` is literally `false`. -/
def ModelRegistry.register {μ : Type} (r : ModelRegistry μ) (id : String)
    (model : μ) (opts : RegOptions) : ModelRegistry μ :=
  let registration : Registration μ :=
    { model := model
      priority := match opts.priority with
        | some p => if p = 0 then 1 else p
        | none => 1
      fallbackFor := match opts.fallbackFor with
        | some s => if s = "" then none else some s
        | none => none
      enabled := !(opts.enabled == some false) }
  { models := mapSet r.models id registration
    fallbacks := match registration.fallbackFor with
      | some f => fbPush r.fallbacks f id
      | none => r.fallbacks }

/-- `ModelRegistry.unregister(id)`: delete the registration and, in every
chain, `indexOf` + `splice` the first occurrence of `id`. -/
def ModelRegistry.unregister {μ : Type} (r : ModelRegistry μ) (id : String) :
    ModelRegistry μ :=
  { models := mapDelete r.models id
    fallbacks := r.fallbacks.map (fun e => (e.1, spliceOutFirstP (fun x => x == id) e.2)) }

/-- `ModelRegistry.get(id)`: the model, only if registered and enabled. -/
def ModelRegistry.get {μ : Type} (r : ModelRegistry μ) (id : String) : Option μ :=
  match mapGet r.models id with
  | some registration => if registration.enabled then some registration.model else none
  | none => none

/-- `ModelRegistry.getFallbacks(id)`: map each chain id through `get` and
drop the nulls. -/
def ModelRegistry.getFallbacks {μ : Type} (r : ModelRegistry μ) (id : String) : List μ :=
  (fbChain r.fallbacks id).filterMap (fun fid => r.get fid)

/-- One element of `getByCapability`'s result: `{ id, model, priority }`. -/
structure CapMatch (μ : Type) where
  id : String
  model : μ
  priority : Int

/-- `!type || caps.type === type`: an absent (or empty, hence falsy) filter
field matches anything. -/
def fieldMatch (filt : Option String) (cap : String) : Bool :=
  match filt with
  | none => true
  | some t => t == "" || cap == t

/-- The match-collection loop of `getByCapability`, in registration
(map-iteration) order, skipping disabled registrations. -/
def capMatches {I C E O : Type} (r : ModelRegistry (Model I C E O))
    (ftype frole : Option String) : List (CapMatch (Model I C E O)) :=
  r.models.filterMap (fun e =>
    if e.2.enabled && fieldMatch ftype e.2.model.caps.type
        && fieldMatch frole e.2.model.caps.role
    then some ⟨e.1, e.2.model, e.2.priority⟩
    else none)

/-- Stable insertion step for descending priority: walk past strictly
greater priorities, so that an element inserted from the left stays ahead
of ties.  This embeds `Array.prototype.sort` with comparator
`(a, b) => b.priority - a.priority`, which ECMAScript guarantees stable. -/
def insertDesc {μ : Type} (x : CapMatch μ) : List (CapMatch μ) → List (CapMatch μ)
  | [] => [x]
  | y :: ys => if x.priority < y.priority then y :: insertDesc x ys else x :: y :: ys

/-- Stable sort by descending priority. -/
def sortByPriorityDesc {μ : Type} : List (CapMatch μ) → List (CapMatch μ)
  | [] => []
  | x :: xs => insertDesc x (sortByPriorityDesc xs)

/-- `ModelRegistry.getByCapability({ type, role })`. -/
def ModelRegistry.getByCapability {I C E O : Type} (r : ModelRegistry (Model I C E O))
    (ftype frole : Option String) : List (CapMatch (Model I C E O)) :=
  sortByPriorityDesc (capMatches r ftype frole)

/-- Progress-event status: the `status` argument of `_emitProgress`
(`'loading' | 'success' | 'error'`). -/
inductive Status where
  | loading
  | success
  | error
deriving DecidableEq

/-- One progress emission `(step, total, message, status)`. -/
structure Event where
  step : Nat
  total : Nat
  message : String
  status : Status
deriving DecidableEq

/-- A registered progress observer.  JS compares callbacks by reference
(`indexOf` uses `===`); `oid` embeds that reference identity.  `react`
returns `some e` when the callback throws `e`, `none` when it returns
normally. -/
structure Obs (E : Type) where
  oid : Nat
  react : Event → Option E

/-- `onProgress(callback)`: push onto `progressCallbacks`. -/
def onProgress {E : Type} (cbs : List (Obs E)) (cb : Obs E) : List (Obs E) :=
  cbs ++ [cb]

/-- The unsubscribe closure returned by `onProgress`: `indexOf(callback)`
(reference equality, i.e. `oid`) then `splice(index, 1)`.  Every closure
returned for the same callback performs this same state update. -/
def unsubscribe {E : Type} (cbs : List (Obs E)) (cb : Obs E) : List (Obs E) :=
  spliceOutFirstP (fun o => o.oid == cb.oid) cbs

/-- `_emitProgress`: `progressCallbacks.forEach(cb => cb(...))`.  Returns
the `oid`s of the callbacks that were actually invoked, in order, and the
first exception thrown (which `forEach` propagates, skipping the rest). -/
def emitProgress {E : Type} : List (Obs E) → Event → List Nat × Option E
  | [], _ => ([], none)
  | o :: rest, ev =>
      match o.react ev with
      | some e => ([o.oid], some e)
      | none =>
          let r := emitProgress rest ev
          (o.oid :: r.1, r.2)

/-- The exception (if any) escaping one `_emitProgress` call. -/
def emitThrow {E : Type} (cbs : List (Obs E)) (ev : Event) : Option E :=
  (emitProgress cbs ev).2

/-- Errors thrown by `runWithFallback`: the `Model not found` error it
constructs itself, or an error thrown by a model / observer. -/
inductive PErr (E : Type) where
  | notFound (id : String)
  | thrown (e : E)
deriving DecidableEq

/-- `.message` of a pipeline error, given `.message` on the underlying
error type. -/
def PErr.message {E : Type} (msgE : E → String) : PErr E → String
  | .notFound id => "Model not found: " ++ id
  | .thrown e => msgE e

/-- One entry of `PipelineResult.steps`
(`{ name, duration, success, error? }`; `error` holds `error.message`). -/
structure StepRecord where
  name : String
  duration : Nat
  success : Bool
  error : Option String
deriving DecidableEq

/-- `PipelineResult`, without the `Date.now()`-derived `startTime` /
`endTime` fields, which carry no control-flow content.  `outputs` is a JS
object, embedded as an insertion-ordered association list. -/
structure PipelineResult (ε O : Type) where
  steps : List StepRecord
  outputs : List (String × O)
  success : Bool
  error : Option ε
deriving DecidableEq

/-- The constructor state: empty steps and outputs, `success = false`,
`error = null`. -/
def PipelineResult.new {ε O : Type} : PipelineResult ε O := ⟨[], [], false, none⟩

/-- `PipelineResult.addStep(name, output, duration)`. -/
def PipelineResult.addStep {ε O : Type} (res : PipelineResult ε O) (name : String)
    (output : O) (duration : Nat) : PipelineResult ε O :=
  { res with
    steps := res.steps ++ [⟨name, duration, true, none⟩]
    outputs := mapSet res.outputs name output }

/-- `PipelineResult.addError(name, error, duration)` (present in the
source; `executeImagePipeline` never invokes it). -/
def PipelineResult.addError {ε O : Type} (res : PipelineResult ε O) (name : String)
    (e : ε) (msgE : ε → String) (duration : Nat) : PipelineResult ε O :=
  { res with
    steps := res.steps ++ [⟨name, duration, false, some (msgE e)⟩]
    error := some e }

/-- `PipelineResult.complete(success)` (timing field elided). -/
def PipelineResult.complete {ε O : Type} (res : PipelineResult ε O) (b : Bool) :
    PipelineResult ε O :=
  { res with success := b }

/-- The `for (const fallback of fallbacks)` loop of `runWithFallback`:
first successful `analyze`, each failure swallowed. -/
def tryFallbacks {I C E O : Type} : List (Model I C E O) → I → C → Option O
  | [], _, _ => none
  | f :: rest, input, ctx =>
      match f.analyze input ctx with
      | .ok out => some out
      | .error _ => tryFallbacks rest input ctx

/-- `PipelineEngine.runWithFallback(modelId, input, context)`.  The JS
method reads the registry singleton; it is passed explicitly here. -/
def runWithFallback {I C E O : Type} (r : ModelRegistry (Model I C E O))
    (modelId : String) (input : I) (ctx : C) : Except (PErr E) O :=
  match r.get modelId with
  | none => .error (.notFound modelId)
  | some m =>
      match m.analyze input ctx with
      | .ok out => .ok out
      | .error e =>
          match tryFallbacks (r.getFallbacks modelId) input ctx with
          | some out => .ok out
          | none => .error (.thrown e)

/-- `PipelineEngine.executeImagePipeline(image)`.  The step-2 context
`{ detections }` is embedded as `some detections` and the default empty
context as `none`.  An exception thrown by an observer during the
catch-clause emission escapes the method; that is the only way the call
fails, hence the `Except E` result.  `d1`, `d2` are the measured step
durations. -/
def executeImagePipeline {I E O : Type} (r : ModelRegistry (Model I (Option O) E O))
    (cbs : List (Obs E)) (msgE : E → String) (image : I) (d1 d2 : Nat) :
    Except E (PipelineResult (PErr E) O) :=
  let result : PipelineResult (PErr E) O := PipelineResult.new
  let onCatch : PErr E → PipelineResult (PErr E) O → Except E (PipelineResult (PErr E) O) :=
    fun err res =>
      match emitThrow cbs ⟨0, 2, PErr.message msgE err, .error⟩ with
      | some e' => .error e'
      | none => .ok (({ res with error := some err } : PipelineResult (PErr E) O).complete false)
  match emitThrow cbs ⟨1, 2, "Scanning image...", .loading⟩ with
  | some e => onCatch (.thrown e) result
  | none =>
      match runWithFallback r "gemini-vision" image none with
      | .error err => onCatch err result
      | .ok detections =>
          let result := result.addStep "vision" detections d1
          match emitThrow cbs ⟨2, 2, "Analyzing safety...", .loading⟩ with
          | some e => onCatch (.thrown e) result
          | none =>
              match runWithFallback r "gemini-reasoning" image (some detections) with
              | .error err => onCatch err result
              | .ok report =>
                  let result := result.addStep "reasoning" report d2
                  match emitThrow cbs ⟨2, 2, "Analysis complete", .success⟩ with
                  | some e => onCatch (.thrown e) result
                  | none => .ok (result.complete true)

/-! ### Concrete instances used to evaluate the embedding

Inputs, outputs and errors are instantiated at `Nat`; model ids are the
short strings these scenarios need; `mkModel t ro e` is a model whose
`analyze` always returns `e` and whose capabilities are `{type := t,
role := ro}`. -/

/-- A model with constant `analyze` outcome. -/
def mkModel (t ro : String) (e : Except Nat Nat) : Model Nat (Option Nat) Nat Nat :=
  ⟨fun _ _ => e, ⟨t, ro⟩⟩

def mP : Model Nat (Option Nat) Nat Nat := mkModel "image" "detection" (.error 10)

def mF1 : Model Nat (Option Nat) Nat Nat := mkModel "image" "detection" (.error 11)

def mF2 : Model Nat (Option Nat) Nat Nat := mkModel "image" "detection" (.ok 42)

/-- Primary `p` fails, fallback chain `[f1, f2]`; `f1` fails, `f2` succeeds. -/
def rChain : ModelRegistry (Model Nat (Option Nat) Nat Nat) :=
  ((ModelRegistry.empty.register "p" mP {}).register "f1" mF1
      { fallbackFor := some "p" }).register "f2" mF2 { fallbackFor := some "p" }

/-- Primary `p` fails, fallback chain `[f1]`, `f1` also fails. -/
def rChainAllFail : ModelRegistry (Model Nat (Option Nat) Nat Nat) :=
  (ModelRegistry.empty.register "p" mP {}).register "f1" mF1 { fallbackFor := some "p" }

/-- `.message` stand-in for the underlying error type. -/
def msg0 : Nat → String := fun _ => "model failure"

/-- Vision model succeeds with `7`, reasoning model fails with `3`,
no fallbacks: the two-step pipeline scenario. -/
def rPipe : ModelRegistry (Model Nat (Option Nat) Nat Nat) :=
  (ModelRegistry.empty.register "gemini-vision"
      (mkModel "image" "detection" (.ok 7)) {}).register "gemini-reasoning"
      (mkModel "image" "analysis" (.error 3)) {}

/-- The registry state after registering id `a` twice with the same
`fallbackFor = "p"`. -/
def regDup : ModelRegistry Nat :=
  ((ModelRegistry.empty : ModelRegistry Nat).register "a" 1
      { fallbackFor := some "p" }).register "a" 2 { fallbackFor := some "p" }

/-- The registry state after re-registering id `a` under a different
`fallbackFor` (`"p"` then `"q"`). -/
def regMove : ModelRegistry Nat :=
  ((ModelRegistry.empty : ModelRegistry Nat).register "a" 1
      { fallbackFor := some "p" }).register "a" 2 { fallbackFor := some "q" }

/-- A model registered as fallback for the never-registered primary `p`. -/
def regOrphan : ModelRegistry Nat :=
  (ModelRegistry.empty : ModelRegistry Nat).register "f" 7 { fallbackFor := some "p" }

/-- Same shape at the engine's model type: `f` (which would succeed) is a
fallback for the never-registered primary `p`. -/
def rOrphan : ModelRegistry (Model Nat (Option Nat) Nat Nat) :=
  ModelRegistry.empty.register "f" mF2 { fallbackFor := some "p" }

/-- An observer that always raises `5`. -/
def obsRaise : Obs Nat := ⟨1, fun _ => some 5⟩

/-- An observer that never raises. -/
def obsBenign : Obs Nat := ⟨2, fun _ => none⟩

/-- An observer that always raises `9`. -/
def obsRaise9 : Obs Nat := ⟨3, fun _ => some 9⟩

/-- A sample progress event. -/
def evC4 : Event := ⟨1, 2, "Scanning image...", .loading⟩

/-- Observers with ids `[1, 2, 1]`: the callback with id `1` registered
twice (same reference), another in between. -/
def obs1 : Obs Nat := ⟨1, fun _ => none⟩

def obs2 : Obs Nat := ⟨2, fun _ => none⟩

def obsList : List (Obs Nat) := [obs1, obs2, obs1]

/-- Registrations for the capability-query scenario: three enabled
matches for `type = "image", role = "x"` with priorities `2, 5, 2`, one
enabled `role = "y"`, and one disabled registration that would match. -/
def regCapA : Registration (Model Nat (Option Nat) Nat Nat) :=
  ⟨mkModel "image" "x" (.ok 0), 2, none, true⟩

def regCapB : Registration (Model Nat (Option Nat) Nat Nat) :=
  ⟨mkModel "image" "x" (.ok 0), 5, none, true⟩

def regCapC : Registration (Model Nat (Option Nat) Nat Nat) :=
  ⟨mkModel "image" "x" (.ok 0), 2, none, true⟩

def regCapD : Registration (Model Nat (Option Nat) Nat Nat) :=
  ⟨mkModel "image" "y" (.ok 0), 9, none, true⟩

def regCapE : Registration (Model Nat (Option Nat) Nat Nat) :=
  ⟨mkModel "image" "x" (.ok 0), 5, none, false⟩

def rCap : ModelRegistry (Model Nat (Option Nat) Nat Nat) :=
  ⟨[("a", regCapA), ("b", regCapB), ("c", regCapC), ("d", regCapD), ("e", regCapE)], []⟩

/-! ### Association-list and splice lemmas -/

theorem mapGet_mapSet_self {α : Type} (l : List (String × α)) (id : String) (v : α) :
    mapGet (mapSet l id v) id = some v := by
  induction l with
  | nil => simp [mapGet, mapSet]
  | cons e rest ih =>
      by_cases h : e.1 = id
      · simp [mapGet, mapSet, h]
      · simpa [mapGet, mapSet, h] using ih

theorem mapGet_mapDelete_self {α : Type} (l : List (String × α)) (id : String) :
    mapGet (mapDelete l id) id = none := by
  induction l with
  | nil => simp [mapGet, mapDelete]
  | cons e rest ih =>
      by_cases h : e.1 = id
      · simpa [mapDelete, h] using ih
      · simpa [mapGet, mapDelete, h] using ih

theorem mapDelete_of_absent {α : Type} (l : List (String × α)) (id : String)
    (h : mapGet l id = none) : mapDelete l id = l := by
  induction l with
  | nil => rfl
  | cons e rest ih =>
      by_cases he : e.1 = id
      · simp [mapGet, he] at h
      · simp only [mapGet, he, if_neg he] at h
        have hrest := ih h
        simp only [mapDelete, List.filter_cons] at hrest ⊢
        simp [he, hrest]

theorem fbChain_fbPush_self (fb : List (String × List String)) (f id : String) :
    fbChain (fbPush fb f id) f = fbChain fb f ++ [id] := by
  induction fb with
  | nil => simp [fbChain, fbPush, mapGet]
  | cons e rest ih =>
      by_cases h : e.1 = f
      · simp [fbChain, fbPush, mapGet, h]
      · simpa [fbChain, fbPush, mapGet, h] using ih

theorem fbChain_fbPush_other (fb : List (String × List String)) (f id k : String)
    (hk : k ≠ f) : fbChain (fbPush fb f id) k = fbChain fb k := by
  have hk' : f ≠ k := Ne.symm hk
  induction fb with
  | nil => simp [fbChain, fbPush, mapGet, hk']
  | cons e rest ih =>
      by_cases h : e.1 = f
      · simp [fbChain, fbPush, mapGet, h, hk']
      · by_cases h2 : e.1 = k
        · simp [fbChain, fbPush, mapGet, h, h2, hk]
        · simpa [fbChain, fbPush, mapGet, h, h2] using ih

theorem spliceOutFirstP_cons {α : Type} (p : α → Bool) (x : α) (xs : List α) :
    spliceOutFirstP p (x :: xs) =
      if p x then xs else x :: spliceOutFirstP p xs := by
  by_cases h : p x
  · simp [spliceOutFirstP, idxOfP, h, List.eraseIdx]
  · simp only [spliceOutFirstP, idxOfP, h, if_neg, Bool.false_eq_true, if_false]
    cases hi : idxOfP p xs with
    | none => simp
    | some i => simp [List.eraseIdx]

theorem spliceOutFirstP_of_none {α : Type} (p : α → Bool) (l : List α)
    (h : ∀ x ∈ l, p x = false) : spliceOutFirstP p l = l := by
  induction l with
  | nil => rfl
  | cons x xs ih =>
      rw [spliceOutFirstP_cons, if_neg (by simp [h x (by simp)]),
        ih (fun y hy => h y (by simp [hy]))]

theorem spliceOutFirstP_split {α : Type} (p : α → Bool) (l1 l2 : List α) (x : α)
    (h1 : ∀ y ∈ l1, p y = false) (hx : p x = true) :
    spliceOutFirstP p (l1 ++ x :: l2) = l1 ++ l2 := by
  induction l1 with
  | nil => simp [spliceOutFirstP_cons, hx]
  | cons y ys ih =>
      rw [List.cons_append, spliceOutFirstP_cons, if_neg (by simp [h1 y (by simp)]),
        ih (fun z hz => h1 z (by simp [hz])), List.cons_append]

theorem countP_spliceOutFirstP {α : Type} (p : α → Bool) (l : List α) :
    List.countP p (spliceOutFirstP p l) = List.countP p l - 1 := by
  induction l with
  | nil => rfl
  | cons x xs ih =>
      rw [spliceOutFirstP_cons]
      by_cases h : p x
      · simp [h, List.countP_cons]
      · simp [h, List.countP_cons, ih]

theorem mem_spliceOutFirstP {α : Type} (p : α → Bool) (l : List α) (a : α)
    (ha : a ∈ spliceOutFirstP p l) : a ∈ l := by
  induction l with
  | nil => simp [spliceOutFirstP, idxOfP] at ha
  | cons x xs ih =>
      rw [spliceOutFirstP_cons] at ha
      by_cases h : p x
      · simp only [h, if_pos] at ha
        exact List.mem_cons_of_mem x ha
      · simp only [h, Bool.false_eq_true, if_false, List.mem_cons] at ha
        rcases ha with h1 | h2
        · simp [h1]
        · exact List.mem_cons_of_mem x (ih h2)

theorem mapGet_map_values {α β : Type} (l : List (String × α)) (g : α → β) (k : String) :
    mapGet (l.map (fun e => (e.1, g e.2))) k = (mapGet l k).map g := by
  induction l with
  | nil => rfl
  | cons e rest ih =>
      by_cases h : e.1 = k
      · simp [mapGet, h]
      · simpa [mapGet, h] using ih

theorem fbChain_unregister {μ : Type} (r : ModelRegistry μ) (id k : String) :
    fbChain (r.unregister id).fallbacks k =
      spliceOutFirstP (fun x => x == id) (fbChain r.fallbacks k) := by
  unfold ModelRegistry.unregister fbChain
  rw [mapGet_map_values]
  cases mapGet r.fallbacks k with
  | none => rfl
  | some lst => rfl

/-! ### Progress-emission lemmas -/

theorem emitProgress_of_forall_none {E : Type} (cbs : List (Obs E)) (ev : Event)
    (h : ∀ o ∈ cbs, o.react ev = none) :
    emitProgress cbs ev = (cbs.map (fun o => o.oid), none) := by
  induction cbs with
  | nil => rfl
  | cons o rest ih =>
      simp only [emitProgress, h o (by simp),
        ih (fun q hq => h q (by simp [hq])), List.map_cons]

theorem emitThrow_of_forall_none {E : Type} (cbs : List (Obs E)) (ev : Event)
    (h : ∀ o ∈ cbs, o.react ev = none) : emitThrow cbs ev = none := by
  simp [emitThrow, emitProgress_of_forall_none cbs ev h]

theorem emitProgress_raise {E : Type} (pre post : List (Obs E)) (o : Obs E)
    (ev : Event) (e : E) (hpre : ∀ q ∈ pre, q.react ev = none)
    (ho : o.react ev = some e) :
    emitProgress (pre ++ o :: post) ev = (pre.map (fun q => q.oid) ++ [o.oid], some e) := by
  induction pre with
  | nil => simp [emitProgress, ho]
  | cons q rest ih =>
      have ih' := ih (fun q' hq' => hpre q' (by simp [hq']))
      simp only [List.cons_append, emitProgress, hpre q (by simp), List.append_eq,
        ih', List.map_cons, List.cons_append]

/-! ### Fallback-loop lemmas -/

theorem tryFallbacks_of_all_error {I C E O : Type} (fs : List (Model I C E O))
    (input : I) (ctx : C) (h : ∀ f ∈ fs, ∃ e, f.analyze input ctx = .error e) :
    tryFallbacks fs input ctx = none := by
  induction fs with
  | nil => rfl
  | cons f rest ih =>
      obtain ⟨e, he⟩ := h f (by simp)
      simp only [tryFallbacks, he]
      exact ih (fun g hg => h g (by simp [hg]))

theorem tryFallbacks_first_ok {I C E O : Type} (pre post : List (Model I C E O))
    (f : Model I C E O) (input : I) (ctx : C) (out : O)
    (hpre : ∀ g ∈ pre, ∃ e, g.analyze input ctx = .error e)
    (hf : f.analyze input ctx = .ok out) :
    tryFallbacks (pre ++ f :: post) input ctx = some out := by
  induction pre with
  | nil => simp [tryFallbacks, hf]
  | cons g rest ih =>
      obtain ⟨e, he⟩ := hpre g (by simp)
      simp only [List.cons_append, tryFallbacks, he]
      exact ih (fun g' hg' => hpre g' (by simp [hg']))

/-! ### Stable-sort lemmas -/

theorem mem_insertDesc {μ : Type} (x a : CapMatch μ) (l : List (CapMatch μ)) :
    a ∈ insertDesc x l ↔ a = x ∨ a ∈ l := by
  induction l with
  | nil => simp [insertDesc]
  | cons y ys ih =>
      by_cases h : x.priority < y.priority
      · simp only [insertDesc, if_pos h, List.mem_cons, ih]
        tauto
      · simp only [insertDesc, if_neg h, List.mem_cons]

theorem insertDesc_pairwise {μ : Type} (x : CapMatch μ) (l : List (CapMatch μ))
    (h : l.Pairwise (fun a b => b.priority ≤ a.priority)) :
    (insertDesc x l).Pairwise (fun a b => b.priority ≤ a.priority) := by
  induction l with
  | nil => simp [insertDesc]
  | cons y ys ih =>
      rcases List.pairwise_cons.mp h with ⟨hy, hys⟩
      by_cases hlt : x.priority < y.priority
      · rw [insertDesc, if_pos hlt]
        refine List.pairwise_cons.mpr ⟨?_, ih hys⟩
        intro b hb
        rcases (mem_insertDesc x b ys).mp hb with rfl | hb'
        · exact le_of_lt hlt
        · exact hy b hb'
      · rw [insertDesc, if_neg hlt]
        refine List.pairwise_cons.mpr ⟨?_, h⟩
        intro b hb
        rcases List.mem_cons.mp hb with rfl | hb'
        · exact le_of_not_lt hlt
        · exact le_trans (hy b hb') (le_of_not_lt hlt)

theorem insertDesc_filter {μ : Type} (x : CapMatch μ) (l : List (CapMatch μ)) (p : Int) :
    (insertDesc x l).filter (fun z => z.priority == p) =
      if x.priority = p then x :: l.filter (fun z => z.priority == p)
      else l.filter (fun z => z.priority == p) := by
  induction l with
  | nil =>
      by_cases h : x.priority = p <;>
        simp [insertDesc, List.filter_cons, List.filter_nil, h]
  | cons y ys ih =>
      by_cases hlt : x.priority < y.priority
      · rw [insertDesc, if_pos hlt]
        by_cases hxp : x.priority = p
        · have hyp : ¬y.priority = p := by
            intro hyp
            rw [hxp] at hlt
            rw [hyp] at hlt
            exact lt_irrefl p hlt
          simp only [List.filter_cons, ih, if_pos hxp]
          simp [hyp]
        · simp only [List.filter_cons, ih, if_neg hxp]
      · rw [insertDesc, if_neg hlt]
        by_cases hxp : x.priority = p <;> simp [List.filter_cons, hxp]

theorem sortByPriorityDesc_pairwise {μ : Type} (l : List (CapMatch μ)) :
    (sortByPriorityDesc l).Pairwise (fun a b => b.priority ≤ a.priority) := by
  induction l with
  | nil => simp [sortByPriorityDesc]
  | cons x xs ih => exact insertDesc_pairwise x _ ih

theorem sortByPriorityDesc_filter {μ : Type} (l : List (CapMatch μ)) (p : Int) :
    (sortByPriorityDesc l).filter (fun z => z.priority == p) =
      l.filter (fun z => z.priority == p) := by
  induction l with
  | nil => rfl
  | cons x xs ih =>
      rw [sortByPriorityDesc, insertDesc_filter, List.filter_cons]
      by_cases h : x.priority = p <;> simp [h, ih]

theorem mem_sortByPriorityDesc {μ : Type} (l : List (CapMatch μ)) (a : CapMatch μ) :
    a ∈ sortByPriorityDesc l ↔ a ∈ l := by
  induction l with
  | nil => simp [sortByPriorityDesc]
  | cons x xs ih =>
      rw [sortByPriorityDesc, mem_insertDesc, ih, List.mem_cons]

/-! ### Claim theorems -/

/-- C1: when primary id `P` has an enabled registration, `runWithFallback`
returns the primary's `analyze` output on success; on primary failure it
tries the resolved fallback chain in order with the same input and
context, returning the first success; and when every candidate fails (in
particular when the chain is empty) it raises exactly the primary's
original error. -/
theorem runWithFallback_contract {I C E O : Type}
    (r : ModelRegistry (Model I C E O)) (P : String) (m : Model I C E O)
    (input : I) (ctx : C) (hget : r.get P = some m) :
    (∀ out, m.analyze input ctx = .ok out →
        runWithFallback r P input ctx = .ok out) ∧
    (∀ e, m.analyze input ctx = .error e →
      ((∀ f ∈ r.getFallbacks P, ∃ e', f.analyze input ctx = .error e') →
          runWithFallback r P input ctx = .error (.thrown e)) ∧
      (∀ pre f post, r.getFallbacks P = pre ++ f :: post →
          (∀ g ∈ pre, ∃ e', g.analyze input ctx = .error e') →
          ∀ out, f.analyze input ctx = .ok out →
          runWithFallback r P input ctx = .ok out)) := by
  constructor
  · intro out hok
    simp [runWithFallback, hget, hok]
  · intro e herr
    constructor
    · intro hall
      simp [runWithFallback, hget, herr, tryFallbacks_of_all_error _ input ctx hall]
    · intro pre f post hchain hpre out hok
      simp [runWithFallback, hget, herr, hchain,
        tryFallbacks_first_ok pre post f input ctx out hpre hok]

/-- C1 witness: on `rChain` (primary and first fallback fail, second
fallback succeeds) the second fallback's output `42` is returned; on
`rChainAllFail` (primary and sole fallback fail) exactly the primary's
error `10` is raised. -/
theorem runWithFallback_contract_witness :
    runWithFallback rChain "p" 0 none = .ok 42 ∧
    runWithFallback rChainAllFail "p" 0 none = .error (.thrown 10) := by
  constructor
  · exact ((runWithFallback_contract rChain "p" mP 0 none rfl).2 10 rfl).2
      [mF1] mF2 [] rfl
      (by
        intro g hg
        rw [List.mem_singleton] at hg
        exact ⟨11, by rw [hg]; rfl⟩)
      42 rfl
  · exact ((runWithFallback_contract rChainAllFail "p" mP 0 none rfl).2 10 rfl).1
      (by
        intro f hf
        have : f = mF1 := by
          have hc : rChainAllFail.getFallbacks "p" = [mF1] := rfl
          rw [hc, List.mem_singleton] at hf
          exact hf
        exact ⟨11, by rw [this]; rfl⟩)

/-- C8 counterexample: in `regOrphan` the primary `p` has no registration,
yet `getFallbacks "p"` returns the enabled fallback model `7`, not the
empty list. -/
theorem getFallbacks_missing_primary_cex :
    mapGet regOrphan.models "p" = none ∧
    regOrphan.getFallbacks "p" = [7] := by
  constructor <;> rfl

/-- C8 amended: `getFallbacks` does not consult the primary's own
registration, so it can be nonempty for an unregistered primary; it is
`runWithFallback` that treats a missing primary as `Model not found` and
returns that error without invoking any fallback. -/
theorem runWithFallback_missing_primary {I C E O : Type}
    (r : ModelRegistry (Model I C E O)) (P : String) (input : I) (ctx : C)
    (h : r.get P = none) :
    runWithFallback r P input ctx = .error (.notFound P) := by
  simp [runWithFallback, h]

/-- C8 witness: on `rOrphan` the unregistered primary `p` has a would-be
successful fallback, yet `runWithFallback` raises `Model not found`. -/
theorem runWithFallback_missing_primary_witness :
    runWithFallback rOrphan "p" 0 none = .error (.notFound "p") :=
  runWithFallback_missing_primary rOrphan "p" 0 none rfl

/-- C9: a `register` call whose `options.priority` is absent or `0` (a
falsy value under `options.priority || 1`) stores priority `1`, so a
priority-`0` registration is impossible and such a model ranks with the
default-priority models. -/
theorem register_priority_floor {μ : Type} (r : ModelRegistry μ) (id : String)
    (model : μ) (opts : RegOptions)
    (h : opts.priority = none ∨ opts.priority = some 0) :
    (mapGet (r.register id model opts).models id).map (fun reg => reg.priority) =
      some 1 := by
  unfold ModelRegistry.register
  rw [mapGet_mapSet_self]
  rcases h with h | h <;> simp [h]

/-- C9 witness: registering `z` with explicit priority `0` stores
priority `1`. -/
theorem register_priority_floor_witness :
    (mapGet ((ModelRegistry.empty : ModelRegistry Nat).register "z" 9
        { priority := some 0 }).models "z").map (fun reg => reg.priority) =
      some 1 :=
  register_priority_floor ModelRegistry.empty "z" 9 { priority := some 0 }
    (Or.inr rfl)

/-- C3 counterexample: after registering id `a` twice with
`fallbackFor = "p"`, the chain for `p` holds `a` twice; and after
re-registering `a` under `fallbackFor = "q"`, `a` stays in `p`'s chain
while also appearing in `q`'s. -/
theorem register_fallback_duplicate_cex :
    fbChain regDup.fallbacks "p" = ["a", "a"] ∧
    fbChain regMove.fallbacks "p" = ["a"] ∧
    fbChain regMove.fallbacks "q" = ["a"] := by
  refine ⟨rfl, rfl, rfl⟩

/-- C3 amended: a `register` call with a non-empty `fallbackFor = F`
appends `id` to `F`'s chain unconditionally and leaves every other chain
unchanged; hence re-registering an id with the same `fallbackFor` creates
a second entry in that chain, and re-registering it with a different
`fallbackFor` appends it to the new chain without removing it from the
old one. -/
theorem register_fallback_append {μ : Type} (r : ModelRegistry μ) (id f : String)
    (model : μ) (opts : RegOptions) (hf : opts.fallbackFor = some f)
    (hne : f ≠ "") :
    fbChain (r.register id model opts).fallbacks f =
      fbChain r.fallbacks f ++ [id] ∧
    ∀ k, k ≠ f →
      fbChain (r.register id model opts).fallbacks k = fbChain r.fallbacks k := by
  have hreg : (r.register id model opts).fallbacks = fbPush r.fallbacks f id := by
    simp [ModelRegistry.register, hf, hne]
  rw [hreg]
  exact ⟨fbChain_fbPush_self r.fallbacks f id,
    fun k hk => fbChain_fbPush_other r.fallbacks f id k hk⟩

/-- C3 witness: appending `a` as a fallback for `p` on top of a state
where `p`'s chain is already `["a"]` yields the chain `["a", "a"]`, and
leaves `q`'s chain untouched. -/
theorem register_fallback_append_witness :
    fbChain (((ModelRegistry.empty : ModelRegistry Nat).register "a" 1
        { fallbackFor := some "p" }).register "a" 2
        { fallbackFor := some "p" }).fallbacks "p" =
      fbChain ((ModelRegistry.empty : ModelRegistry Nat).register "a" 1
        { fallbackFor := some "p" }).fallbacks "p" ++ ["a"] ∧
    fbChain (((ModelRegistry.empty : ModelRegistry Nat).register "a" 1
        { fallbackFor := some "p" }).register "a" 2
        { fallbackFor := some "p" }).fallbacks "q" =
      fbChain ((ModelRegistry.empty : ModelRegistry Nat).register "a" 1
        { fallbackFor := some "p" }).fallbacks "q" := by
  have h := register_fallback_append
    ((ModelRegistry.empty : ModelRegistry Nat).register "a" 1
      { fallbackFor := some "p" }) "a" "p" 2 { fallbackFor := some "p" }
    rfl (by decide)
  exact ⟨h.1, h.2 "q" (by decide)⟩

/-- C7 counterexample: in `regDup` the id `a` occurs twice in `p`'s chain;
after `unregister "a"` the lookup `get "a"` indeed returns nothing, but
`a` still appears in `p`'s fallback chain. -/
theorem unregister_residue_cex :
    (regDup.unregister "a").get "a" = none ∧
    "a" ∈ fbChain (regDup.unregister "a").fallbacks "p" := by
  constructor
  · rfl
  · show "a" ∈ ["a"]
    exact List.mem_singleton.mpr rfl

/-- C7 amended: after `unregister id`, `get id` returns nothing;
`unregister` removes only the first occurrence of `id` from each fallback
chain, so `id` no longer appears in a chain provided it occurred there at
most once (duplicate entries leave a residue); and `unregister` of an id
absent from the registration map and from every chain is a no-op. -/
theorem unregister_spec {μ : Type} (r : ModelRegistry μ) (id : String) :
    (r.unregister id).get id = none ∧
    (∀ k, List.countP (fun x => x == id) (fbChain r.fallbacks k) ≤ 1 →
        id ∉ fbChain (r.unregister id).fallbacks k) ∧
    (mapGet r.models id = none → (∀ e ∈ r.fallbacks, id ∉ e.2) →
        r.unregister id = r) := by
  refine ⟨?_, ?_, ?_⟩
  · show (match mapGet (r.unregister id).models id with
      | some registration =>
          if registration.enabled then some registration.model else none
      | none => none) = none
    rw [show (r.unregister id).models = mapDelete r.models id from rfl,
      mapGet_mapDelete_self]
  · intro k hcount hmem
    rw [fbChain_unregister] at hmem
    have hc := countP_spliceOutFirstP (fun x => x == id) (fbChain r.fallbacks k)
    have hzero : List.countP (fun x => x == id)
        (spliceOutFirstP (fun x => x == id) (fbChain r.fallbacks k)) = 0 := by
      omega
    have := (List.countP_eq_zero.mp hzero) id hmem
    simp at this
  · intro hno hchains
    have hfb : r.fallbacks.map
        (fun e => (e.1, spliceOutFirstP (fun x => x == id) e.2)) = r.fallbacks := by
      have : ∀ e ∈ r.fallbacks,
          (e.1, spliceOutFirstP (fun x => x == id) e.2) = e := by
        intro e he
        have hsp : spliceOutFirstP (fun x => x == id) e.2 = e.2 :=
          spliceOutFirstP_of_none _ _ (by
            intro x hx
            have hxid : x ≠ id := by
              intro hxid
              exact hchains e he (hxid ▸ hx)
            simp [hxid])
        rw [hsp]
      calc r.fallbacks.map (fun e => (e.1, spliceOutFirstP (fun x => x == id) e.2))
          = r.fallbacks.map (fun e => e) := List.map_congr_left this
        _ = r.fallbacks := List.map_id' r.fallbacks
    show (⟨mapDelete r.models id, _⟩ : ModelRegistry μ) = r
    rw [mapDelete_of_absent r.models id hno]
    cases r with
    | mk ms fbs =>
        simp only [ModelRegistry.mk.injEq, true_and]
        exact hfb

/-- C7 witness: unregistering `f` from `regOrphan` (where `f` occurs once
in `p`'s chain) makes `get "f"` return nothing and removes `f` from the
chain; unregistering the absent id `z` is a no-op. -/
theorem unregister_spec_witness :
    (regOrphan.unregister "f").get "f" = none ∧
    "f" ∉ fbChain (regOrphan.unregister "f").fallbacks "p" ∧
    regOrphan.unregister "z" = regOrphan := by
  refine ⟨(unregister_spec regOrphan "f").1,
    (unregister_spec regOrphan "f").2.1 "p" (by decide), ?_⟩
  exact (unregister_spec regOrphan "z").2.2 rfl (by decide)

/-- C4 counterexample: with observers `[1, 2]` where observer `1` raises,
`_emitProgress` invokes only observer `1`; observer `2` is never invoked
and the exception propagates to the emitter. -/
theorem emitProgress_isolation_cex :
    emitProgress [obsRaise, obsBenign] evC4 = ([1], some 5) := by
  rfl

/-- C4 amended: progress observers are invoked synchronously in
registration order, but `_emitProgress` iterates with a bare `forEach`,
so an observer that raises prevents every later observer from being
invoked and its exception propagates to the emitting code (aborting the
run when the emission happens in the engine's catch clause). -/
theorem emitProgress_order_raise {E : Type} (cbs : List (Obs E)) (ev : Event) :
    ((∀ o ∈ cbs, o.react ev = none) →
        emitProgress cbs ev = (cbs.map (fun o => o.oid), none)) ∧
    (∀ pre o post e, cbs = pre ++ o :: post →
        (∀ q ∈ pre, q.react ev = none) → o.react ev = some e →
        emitProgress cbs ev = (pre.map (fun q => q.oid) ++ [o.oid], some e)) := by
  refine ⟨emitProgress_of_forall_none cbs ev, ?_⟩
  intro pre o post e hcbs hpre ho
  rw [hcbs]
  exact emitProgress_raise pre post o ev e hpre ho

/-- C4 witness: both branches at concrete observer lists — two benign
observers are both invoked in order; a raising first observer stops the
iteration after itself. -/
theorem emitProgress_order_raise_witness :
    emitProgress [obsBenign, obs2] evC4 = ([2, 2], none) ∧
    emitProgress [obsRaise, obsBenign] evC4 = ([1], some 5) ∧
    emitProgress [obsRaise, obsBenign] evC4 ≠ ([1, 2], none) := by
  refine ⟨?_, ?_, ?_⟩
  · exact (emitProgress_order_raise [obsBenign, obs2] evC4).1 (by
      intro o ho
      rcases List.mem_cons.mp ho with rfl | ho2
      · rfl
      · rw [List.mem_singleton] at ho2
        rw [ho2]
        rfl)
  · exact (emitProgress_order_raise [obsRaise, obsBenign] evC4).2
      [] obsRaise [obsBenign] 5 rfl (by intro q hq; simp at hq) rfl
  · have h := (emitProgress_order_raise [obsRaise, obsBenign] evC4).2
      [] obsRaise [obsBenign] 5 rfl (by intro q hq; simp at hq) rfl
    rw [h]
    decide

/-- C10: the unsubscribe closure removes the first remaining occurrence
of its callback (by reference identity) from the observer list; calling
it twice when the callback was registered twice removes both entries, and
unsubscribing is idempotent exactly when the callback is registered at
most once. -/
theorem unsubscribe_spec {E : Type} (cbs l1 l2 : List (Obs E)) (cb o : Obs E) :
    ((∀ q ∈ l1, q.oid ≠ cb.oid) → o.oid = cb.oid →
        unsubscribe (l1 ++ o :: l2) cb = l1 ++ l2) ∧
    (List.countP (fun q => q.oid == cb.oid) (unsubscribe cbs cb) =
        List.countP (fun q => q.oid == cb.oid) cbs - 1) ∧
    (List.countP (fun q => q.oid == cb.oid)
        (unsubscribe (unsubscribe cbs cb) cb) =
        List.countP (fun q => q.oid == cb.oid) cbs - 2) ∧
    (List.countP (fun q => q.oid == cb.oid) cbs ≤ 1 →
        unsubscribe (unsubscribe cbs cb) cb = unsubscribe cbs cb) ∧
    (2 ≤ List.countP (fun q => q.oid == cb.oid) cbs →
        unsubscribe (unsubscribe cbs cb) cb ≠ unsubscribe cbs cb) := by
  have hone : ∀ l : List (Obs E),
      List.countP (fun q => q.oid == cb.oid) (unsubscribe l cb) =
        List.countP (fun q => q.oid == cb.oid) l - 1 :=
    fun l => countP_spliceOutFirstP (fun q => q.oid == cb.oid) l
  refine ⟨?_, hone cbs, ?_, ?_, ?_⟩
  · intro h1 ho
    exact spliceOutFirstP_split (fun q => q.oid == cb.oid) l1 l2 o
      (by
        intro y hy
        simp [h1 y hy])
      (by simp [ho])
  · rw [hone (unsubscribe cbs cb), hone cbs]
    omega
  · intro hle
    have hzero : List.countP (fun q => q.oid == cb.oid) (unsubscribe cbs cb) = 0 := by
      rw [hone cbs]; omega
    exact spliceOutFirstP_of_none _ _ (by
      intro x hx
      have := (List.countP_eq_zero.mp hzero) x hx
      simpa using this)
  · intro hge heq
    have h1 := hone cbs
    have h2 := hone (unsubscribe cbs cb)
    rw [heq, h1] at h2
    omega

/-- C10 witness: with the callback of id `1` registered twice
(`obsList = [1, 2, 1]`), unsubscribing removes the first occurrence,
doing it twice removes both, and the second unsubscribe is not a no-op. -/
theorem unsubscribe_spec_witness :
    unsubscribe obsList obs1 = [obs2, obs1] ∧
    List.countP (fun q => q.oid == obs1.oid)
        (unsubscribe (unsubscribe obsList obs1) obs1) = 0 ∧
    unsubscribe (unsubscribe obsList obs1) obs1 ≠ unsubscribe obsList obs1 := by
  refine ⟨?_, ?_, ?_⟩
  · exact (unsubscribe_spec obsList ([] : List (Obs Nat)) [obs2, obs1]
        obs1 obs1).1 (by intro q hq; simp at hq) rfl
  · exact (unsubscribe_spec obsList [] [] obs1 obs1).2.2.1
  · exact (unsubscribe_spec obsList [] [] obs1 obs1).2.2.2.2 (by decide)

/-- C6: `getByCapability` returns exactly the enabled registrations whose
descriptor matches the filter (an unset filter field matches anything,
via `fieldMatch`), never a disabled one; the result is sorted by
descending priority; and within each priority the registration
(map-iteration) order is preserved, `capMatches` being the unsorted
matches in that order. -/
theorem getByCapability_spec {I C E O : Type} (r : ModelRegistry (Model I C E O))
    (ftype frole : Option String) :
    (∀ z ∈ r.getByCapability ftype frole, ∃ reg : Registration (Model I C E O),
        (z.id, reg) ∈ r.models ∧ reg.enabled = true ∧
        fieldMatch ftype reg.model.caps.type = true ∧
        fieldMatch frole reg.model.caps.role = true ∧
        z.model = reg.model ∧ z.priority = reg.priority) ∧
    (∀ id reg, (id, reg) ∈ r.models → reg.enabled = true →
        fieldMatch ftype reg.model.caps.type = true →
        fieldMatch frole reg.model.caps.role = true →
        (⟨id, reg.model, reg.priority⟩ : CapMatch (Model I C E O)) ∈
          r.getByCapability ftype frole) ∧
    (r.getByCapability ftype frole).Pairwise (fun a b => b.priority ≤ a.priority) ∧
    (∀ p : Int, (r.getByCapability ftype frole).filter (fun z => z.priority == p) =
        (capMatches r ftype frole).filter (fun z => z.priority == p)) := by
  refine ⟨?_, ?_, sortByPriorityDesc_pairwise _, fun p => sortByPriorityDesc_filter _ p⟩
  · intro z hz
    rw [ModelRegistry.getByCapability, mem_sortByPriorityDesc] at hz
    rw [capMatches, List.mem_filterMap] at hz
    obtain ⟨e, he, hsome⟩ := hz
    by_cases hcond : e.2.enabled && fieldMatch ftype e.2.model.caps.type
        && fieldMatch frole e.2.model.caps.role
    · rw [if_pos hcond] at hsome
      rw [Bool.and_eq_true, Bool.and_eq_true] at hcond
      obtain ⟨⟨h1, h2⟩, h3⟩ := hcond
      have hz := Option.some.inj hsome
      refine ⟨e.2, ?_, h1, h2, h3, ?_, ?_⟩
      · rw [← hz]
        exact he
      · rw [← hz]
      · rw [← hz]
    · rw [if_neg hcond] at hsome
      exact absurd hsome (by simp)
  · intro id reg hmem hen hty hro
    rw [ModelRegistry.getByCapability, mem_sortByPriorityDesc, capMatches,
      List.mem_filterMap]
    refine ⟨(id, reg), hmem, ?_⟩
    rw [if_pos (by simp [hen, hty, hro])]

/-- C6 witness: on `rCap` (enabled matches `a, b, c` with priorities
`2, 5, 2`, a non-matching `d`, a disabled would-be match `e`), the query
for `type = image, role = x` contains the entry for `a`; and concretely
the full result is `[b, a, c]` — descending priority, ties `a, c` in
registration order, and the disabled `e` absent. -/
theorem getByCapability_spec_witness :
    (⟨"a", regCapA.model, regCapA.priority⟩ : CapMatch (Model Nat (Option Nat) Nat Nat)) ∈
      rCap.getByCapability (some "image") (some "x") ∧
    (rCap.getByCapability (some "image") (some "x")).map
        (fun z => (z.id, z.priority)) = [("b", 5), ("a", 2), ("c", 2)] := by
  constructor
  · exact (getByCapability_spec rCap (some "image") (some "x")).2.1 "a" regCapA
      (by simp [rCap]) rfl rfl rfl
  · rfl

/-- C2 counterexample: in the two-step scenario `rPipe` (vision succeeds
with `7`, reasoning fails with `3`, no fallbacks, no observers) the
returned result contains zero failed step records — the catch clause of
`executeImagePipeline` never calls `addError` — not exactly one. -/
theorem executeImagePipeline_failed_record_cex :
    (executeImagePipeline rPipe [] msg0 0 5 6).toOption.map
        (fun res =>
          ((res.steps.filter (fun s => !s.success)).length,
           (res.steps.filter (fun s => s.success)).length,
           res.outputs, res.success, res.error.isSome)) =
      some (0, 1, [("vision", (7 : Nat))], false, true) := by
  rfl

/-- C2 amended: in a two-step run where step 1 succeeds and step 2 fails
(and no observer raises), the result has `success = false`, exactly one
successful step record and no failed step record — the error is carried
only in the result's top-level `error` field — with `outputs` containing
only step 1's output. -/
theorem executeImagePipeline_step2_failure {I E O : Type}
    (r : ModelRegistry (Model I (Option O) E O)) (cbs : List (Obs E))
    (msgE : E → String) (image : I) (d1 d2 : Nat) (v : O) (err : PErr E)
    (hraise : ∀ o ∈ cbs, ∀ ev, o.react ev = none)
    (h1 : runWithFallback r "gemini-vision" image none = .ok v)
    (h2 : runWithFallback r "gemini-reasoning" image (some v) = .error err) :
    executeImagePipeline r cbs msgE image d1 d2 =
      .ok { steps := [⟨"vision", d1, true, none⟩]
            outputs := [("vision", v)]
            success := false
            error := some err } := by
  have he : ∀ ev, emitThrow cbs ev = none :=
    fun ev => emitThrow_of_forall_none cbs ev (fun o ho => hraise o ho ev)
  unfold executeImagePipeline
  simp only [he, h1, h2]
  rfl

/-- C2 witness: the concrete scenario `rPipe` with no observers yields
exactly the one-successful-record result with top-level error `3`. -/
theorem executeImagePipeline_step2_failure_witness :
    executeImagePipeline rPipe [] msg0 0 5 6 =
      .ok { steps := [⟨"vision", 5, true, none⟩]
            outputs := [("vision", (7 : Nat))]
            success := false
            error := some (PErr.thrown 3) } :=
  executeImagePipeline_step2_failure rPipe [] msg0 0 5 6 7 (PErr.thrown 3)
    (by intro o ho; simp at ho) rfl rfl

/-- C5 counterexample: with a registered observer that raises, the
pipeline call does not return a `PipelineResult` at all — the observer's
exception raised during the catch-clause emission escapes
`executeImagePipeline` as a bare exception. -/
theorem executeImagePipeline_throw_cex :
    executeImagePipeline
        (ModelRegistry.empty : ModelRegistry (Model Nat (Option Nat) Nat Nat))
        [obsRaise9] msg0 0 0 0 = Except.error 9 := by
  rfl

/-- C5 amended: provided no registered progress observer raises (in
particular with no observers at all), `executeImagePipeline` returns a
populated `PipelineResult` for every registry state and input — even when
a step fails — and never propagates an exception, keeping already-computed
step outputs inspectable. -/
theorem executeImagePipeline_total {I E O : Type}
    (r : ModelRegistry (Model I (Option O) E O)) (cbs : List (Obs E))
    (msgE : E → String) (image : I) (d1 d2 : Nat)
    (hraise : ∀ o ∈ cbs, ∀ ev, o.react ev = none) :
    ∃ res, executeImagePipeline r cbs msgE image d1 d2 = Except.ok res := by
  have he : ∀ ev, emitThrow cbs ev = none :=
    fun ev => emitThrow_of_forall_none cbs ev (fun o ho => hraise o ho ev)
  unfold executeImagePipeline
  cases hv : runWithFallback r "gemini-vision" image none with
  | error e =>
      simp only [he, hv]
      exact ⟨_, rfl⟩
  | ok detections =>
      cases hr : runWithFallback r "gemini-reasoning" image (some detections) with
      | error e =>
          simp only [he, hv, hr]
          exact ⟨_, rfl⟩
      | ok report =>
          simp only [he, hv, hr]
          exact ⟨_, rfl⟩

/-- C5 witness: on the failing scenario `rPipe` with a benign observer
registered, the pipeline still returns a result. -/
theorem executeImagePipeline_total_witness :
    ∃ res, executeImagePipeline rPipe [obsBenign] msg0 0 5 6 = Except.ok res :=
  executeImagePipeline_total rPipe [obsBenign] msg0 0 5 6
    (by
      intro o ho ev
      rw [List.mem_singleton] at ho
      rw [ho]
      rfl)

end Percepta
